import Mathlib

/-!
Verification of the graph-construction and interaction core of the
Image Archive conceptual-network script (`script.js`).

The JavaScript core is pure except for DOM rendering, so it is embedded
shallowly: items and links are structures, the connectivity, filtering,
ordering, loading, hover-classification and resize operations are Lean
functions translated from the source.  JS `Array.prototype.sort` (stable
since ES2019) is modelled by `List.insertionSort`, which is stable and
produces the unique stable sorted permutation for a total preorder.
`localeCompare` is modelled by the total order on `String`.  Fractional
style constants (opacity/scale, e.g. `1.4`, `0.3`) are represented in
tenths as naturals; geometric quantities use `ℚ`.
-/

/-- An item (node) after loading: `id`, `image`, `source` URL, derived
`name`, and the two tag lists.  Layout-only fields (`x`, `y`, `fx`, `fy`)
are owned by the D3 simulation and are not part of the core logic. -/
structure Item where
  id : String
  image : String := ""
  src : Option String := none
  name : String := ""
  themes : List String := []
  moods : List String := []
deriving DecidableEq, Repr

/-- A derived link between two item ids (`{source: ..., target: ...}`). -/
structure Link where
  source : String
  target : String
deriving DecidableEq, Repr

/-- Two links connect the same unordered pair of ids. -/
def Link.sameEnds (l1 l2 : Link) : Prop :=
  (l1.source = l2.source ∧ l1.target = l2.target) ∨
  (l1.source = l2.target ∧ l1.target = l2.source)

instance : DecidableRel Link.sameEnds := fun _ _ =>
  inferInstanceAs (Decidable (_ ∨ _))

namespace CONFIG

/-- Config `hoverScale: 1.4`, in tenths. -/
def hoverScale : Nat := 14

/-- Config `connectedScale: 1.1`, in tenths. -/
def connectedScale : Nat := 11

/-- Config `unrelatedOpacity: 0.3`, in tenths. -/
def unrelatedOpacity : Nat := 3

/-- Config `centerStrength: 0.05`. -/
def centerStrength : ℚ := 5/100

/-- Config `lineColor: "#3A86FF"`. -/
def lineColor : String := "#3A86FF"

/-- Config `lineColorHover: "#6ba3ff"`. -/
def lineColorHover : String := "#6ba3ff"

end CONFIG

/-- Opacity `1` / scale `1`, in tenths. -/
def fullOpacity : Nat := 10

/-- Scale `1`, in tenths. -/
def baseScale : Nat := 10

/-- Source `nodesShareConnection(a, b)`:
`a.themes.some(t => b.themes.includes(t)) || a.moods.some(m => b.moods.includes(m))`. -/
def nodesShareConnection (a b : Item) : Bool :=
  let sharedTheme := a.themes.any (fun t => b.themes.contains t)
  let sharedMood := a.moods.any (fun m => b.moods.contains m)
  sharedTheme || sharedMood

/-- Source `buildLinks(nodes)`: the double loop over index pairs `i < j`; for the
head element it visits every later element in order, then recurses on the
tail, which is exactly the `for i / for j > i` iteration. -/
def buildLinks : List Item → List Link
  | [] => []
  | n :: rest =>
      ((rest.filter (fun m => nodesShareConnection n m)).map
        (fun m => Link.mk n.id m.id)) ++ buildLinks rest

/-- Source `applyThemeFilter(nodes, theme)`: `if (!theme) return nodes;` (the empty
string is the only falsy `String`), else keep nodes whose `themes` include
the theme. -/
def applyThemeFilter (nodes : List Item) (theme : String) : List Item :=
  if theme = "" then nodes
  else nodes.filter (fun n => n.themes.contains theme)

/-- Lexicographic "less or equal" on character lists, comparing code
points position by position.  This models the total order that
`localeCompare` induces on strings. -/
def charsLE : List Char → List Char → Bool
  | [], _ => true
  | _ :: _, [] => false
  | c :: cs, d :: ds =>
      if c < d then true
      else if d < c then false
      else charsLE cs ds

/-- The test `a.localeCompare(b) <= 0`, modelled as lexicographic code-point
comparison of the underlying character lists. -/
def strLE (a b : String) : Bool :=
  charsLE a.data b.data

/-- The comparison key `a.name || a.id`: the `name` unless it is empty
(the only falsy string), else the `id`. -/
def sortKey (a : Item) : String :=
  if a.name = "" then a.id else a.name

/-- The no-tag comparator of `sortNodesByTag` as a relation:
`(a.name || a.id).localeCompare(b.name || b.id) <= 0`. -/
def keyRel (a b : Item) : Prop :=
  strLE (sortKey a) (sortKey b) = true

instance : DecidableRel keyRel := fun _ _ =>
  inferInstanceAs (Decidable (_ = true))

/-- The tagged comparator of `sortNodesByTag` as a boolean "compares at
most 0" test: `-1` when only `a` has the tag, `+1` when only `b` has it,
otherwise the key comparison. -/
def tagLE (tag : String) (a b : Item) : Bool :=
  let aHas := a.themes.contains tag
  let bHas := b.themes.contains tag
  if aHas && !bHas then true
  else if !aHas && bHas then false
  else strLE (sortKey a) (sortKey b)

/-- The tagged comparator as a relation. -/
def tagRel (tag : String) (a b : Item) : Prop :=
  tagLE tag a b = true

instance (tag : String) : DecidableRel (tagRel tag) := fun _ _ =>
  inferInstanceAs (Decidable (_ = true))

/-- Source `sortNodesByTag(nodes, tag)`: copies the list and stable-sorts it with
the comparator selected by the truthiness of `tag`. -/
def sortNodesByTag (nodes : List Item) (tag : String) : List Item :=
  if tag = "" then List.insertionSort keyRel nodes
  else List.insertionSort (tagRel tag) nodes

/-- A raw `data.json` node entry.  `themes`/`moods` are `none` when the
field is omitted or is not an array (`Array.isArray` fails); `name` is
`none` when omitted. -/
structure RawNode where
  id : String
  image : String := ""
  src : Option String := none
  name : Option String := none
  themes : Option (List String) := none
  moods : Option (List String) := none
deriving DecidableEq, Repr

/-- The per-entry normalisation inside `loadData`:
`name: d.name || [].concat(d.themes || [], d.moods || []).join(", ")`,
`themes: Array.isArray(d.themes) ? d.themes : []`, same for `moods`. -/
def loadItem (d : RawNode) : Item :=
  let ts := d.themes.getD []
  let ms := d.moods.getD []
  let joined := String.intercalate ", " (ts ++ ms)
  { id := d.id
    image := d.image
    src := d.src
    name := match d.name with
      | some s => if s = "" then joined else s
      | none => joined
    themes := ts
    moods := ms }

/-- The pure part of `loadData`: map the raw entries and build the links. -/
def loadData (raw : List RawNode) : List Item × List Link :=
  let nodes := raw.map loadItem
  (nodes, buildLinks nodes)

/-- Source `rebuildForFilter(theme)`: filter the full node list by theme, sort by
tag, rebuild the links over the filtered, ordered nodes. -/
def rebuildForFilter (fullNodes : List Item) (theme : String) :
    List Item × List Link :=
  let filteredNodes := sortNodesByTag (applyThemeFilter fullNodes theme) theme
  (filteredNodes, buildLinks filteredNodes)

/-- The `connectedIds` set built in `setHover`: for each link touching the
hovered id, the opposite endpoint is added.  The JS `Set` is modelled as a
list; only membership is ever queried (`connectedIds.has(id)`). -/
def connectedIds (links : List Link) (nodeId : String) : List String :=
  match links with
  | [] => []
  | l :: rest =>
      let acc := connectedIds rest nodeId
      let acc1 := if l.target = nodeId then l.source :: acc else acc
      if l.source = nodeId then l.target :: acc1 else acc1

/-- A node's visual weight (opacity and scale, both in tenths). -/
structure NodeStyle where
  opacity : Nat
  scale : Nat
deriving DecidableEq, Repr

/-- The per-node classification of `setHover(nodeId)`.  `hover = none`
models `setHover(null)`; a hovered empty string is falsy in JS
(`if (!nodeId)`) and lands in the same neutral branch. -/
def nodeStyle (hover : Option String) (links : List Link) (id : String) :
    NodeStyle :=
  match hover with
  | none => ⟨fullOpacity, baseScale⟩
  | some n =>
      if n = "" then ⟨fullOpacity, baseScale⟩
      else if id = n then ⟨fullOpacity, CONFIG.hoverScale⟩
      else if id ∈ connectedIds links n then ⟨fullOpacity, CONFIG.connectedScale⟩
      else ⟨CONFIG.unrelatedOpacity, baseScale⟩

/-- The per-link stroke of `setHover`:
`isHovered ? CONFIG.lineColorHover : CONFIG.lineColor`. -/
def linkStroke (hover : Option String) (l : Link) : String :=
  match hover with
  | none => CONFIG.lineColor
  | some n =>
      if n = "" then CONFIG.lineColor
      else if l.source = n ∨ l.target = n then CONFIG.lineColorHover
      else CONFIG.lineColor

/-- The per-link `dimmed` class of `setHover`:
`nodeId && sid !== nodeId && tid !== nodeId`. -/
def linkDimmed (hover : Option String) (l : Link) : Bool :=
  match hover with
  | none => false
  | some n =>
      if n = "" then false
      else decide (l.source ≠ n ∧ l.target ≠ n)

/-- The simulation state touched by `onResize`: the centering-force target
and strength, and the temperature (`alpha`). -/
structure SimState where
  centerX : ℚ
  centerY : ℚ
  centerStrength : ℚ
  alpha : ℚ
deriving DecidableEq

/-- The view state touched by `onResize`: current graph, drawing-surface
dimensions, and the (possibly absent) simulation. -/
structure GraphView where
  nodes : List Item
  links : List Link
  svgWidth : ℚ
  svgHeight : ℚ
  sim : Option SimState

/-- Source `getDimensions()`: `rect.width || 1200` (0 is the falsy number a
collapsed element reports) and `Math.max(rect.height, 800)`. -/
def getDimensions (rectW rectH : ℚ) : ℚ × ℚ :=
  (if rectW = 0 then 1200 else rectW, max rectH 800)

/-- Source `onResize()`: recompute dimensions, update the svg surface, and when a
simulation exists replace its center force with the new center and set
`alpha(0.3)` (restart). -/
def onResize (st : GraphView) (rectW rectH : ℚ) : GraphView :=
  let d := getDimensions rectW rectH
  { st with
    svgWidth := d.1
    svgHeight := d.2
    sim := st.sim.map (fun s =>
      { s with
        centerX := d.1 / 2
        centerY := d.2 / 2
        centerStrength := CONFIG.centerStrength
        alpha := 3/10 }) }

/-- Item `A` of the testable-properties scenario. -/
def itemA : Item := { id := "A", name := "A", themes := ["x"] }

/-- Item `B` of the testable-properties scenario. -/
def itemB : Item := { id := "B", name := "B", themes := ["x", "y"] }

/-- Item `C` of the testable-properties scenario. -/
def itemC : Item := { id := "C", name := "C", themes := ["y"] }

/-- Item `D` of the testable-properties scenario. -/
def itemD : Item := { id := "D", name := "D", themes := ["z"] }

/-- An item whose `name` derives to the empty string (no explicit name,
no tags). -/
def itemNoName : Item := { id := "z" }

/-- An item with an explicit one-letter name smaller than `itemNoName`'s
id. -/
def itemNamed : Item := { id := "a", name := "a" }

/-- A lone item with empty name, used for stale-hover scenarios. -/
def itemLone : Item := { id := "a" }

/-- A raw entry with the `themes` field omitted but a mood present. -/
def rawOmitted : RawNode := { id := "r1", moods := some ["m"] }

/-! ### The comparators are total preorders -/

theorem charsLE_total : ∀ a b : List Char, charsLE a b = true ∨ charsLE b a = true
  | [], _ => Or.inl rfl
  | _ :: _, [] => Or.inr rfl
  | c :: cs, d :: ds => by
    rcases lt_trichotomy c d with h | h | h
    · exact Or.inl (by simp [charsLE, h])
    · subst h
      rcases charsLE_total cs ds with h' | h'
      · exact Or.inl (by simp [charsLE, h'])
      · exact Or.inr (by simp [charsLE, h'])
    · exact Or.inr (by simp [charsLE, h])

theorem charsLE_trans : ∀ a b c : List Char,
    charsLE a b = true → charsLE b c = true → charsLE a c = true
  | [], _, _, _, _ => rfl
  | _ :: _, [], _, h1, _ => by simp [charsLE] at h1
  | _ :: _, _ :: _, [], _, h2 => by simp [charsLE] at h2
  | x :: xs, y :: ys, z :: zs, h1, h2 => by
    rcases lt_trichotomy x y with hxy | hxy | hxy
    · rcases lt_trichotomy y z with hyz | hyz | hyz
      · simp [charsLE, lt_trans hxy hyz]
      · subst hyz; simp [charsLE, hxy]
      · simp [charsLE, hyz, lt_asymm hyz] at h2
    · subst hxy
      simp only [charsLE, lt_irrefl, if_false] at h1
      rcases lt_trichotomy x z with hxz | hxz | hxz
      · simp [charsLE, hxz]
      · subst hxz
        simp only [charsLE, lt_irrefl, if_false] at h2 ⊢
        exact charsLE_trans xs ys zs h1 h2
      · simp [charsLE, hxz, lt_asymm hxz] at h2
    · simp [charsLE, hxy, lt_asymm hxy] at h1

instance : IsTotal Item keyRel :=
  ⟨fun a b => charsLE_total (sortKey a).data (sortKey b).data⟩

instance : IsTrans Item keyRel :=
  ⟨fun _ _ _ h1 h2 => charsLE_trans _ _ _ h1 h2⟩

theorem tagLE_total (tag : String) (a b : Item) :
    tagLE tag a b = true ∨ tagLE tag b a = true := by
  by_cases ha : tag ∈ a.themes <;>
    by_cases hb : tag ∈ b.themes <;>
    simp [tagLE, ha, hb] <;>
    exact charsLE_total _ _

theorem tagLE_trans (tag : String) (a b c : Item)
    (h1 : tagLE tag a b = true) (h2 : tagLE tag b c = true) :
    tagLE tag a c = true := by
  by_cases ha : a.themes.contains tag = true <;>
    by_cases hb : b.themes.contains tag = true <;>
    by_cases hc : c.themes.contains tag = true <;>
    simp_all [tagLE] <;>
    exact charsLE_trans _ _ _ h1 h2

instance (tag : String) : IsTotal Item (tagRel tag) :=
  ⟨fun a b => tagLE_total tag a b⟩

instance (tag : String) : IsTrans Item (tagRel tag) :=
  ⟨fun a b c => tagLE_trans tag a b c⟩

/-! ### Characterisation of `buildLinks` -/

/-- A link is produced by `buildLinks` exactly when its endpoints come
from a connected pair appearing in input order (`[a, b]` a sublist of the
input means `a` occurs strictly before `b`). -/
theorem mem_buildLinks {ns : List Item} {l : Link} :
    l ∈ buildLinks ns ↔
      ∃ a b : Item, List.Sublist [a, b] ns ∧ nodesShareConnection a b = true ∧
        l = ⟨a.id, b.id⟩ := by
  induction ns with
  | nil =>
    simp [buildLinks]
  | cons n rest ih =>
    simp only [buildLinks, List.mem_append, List.mem_map, List.mem_filter, ih]
    constructor
    · rintro (⟨m, ⟨hm, hshare⟩, rfl⟩ | ⟨a, b, hsub, hshare, rfl⟩)
      · exact ⟨n, m, List.Sublist.cons₂ n (List.singleton_sublist.mpr hm), hshare, rfl⟩
      · exact ⟨a, b, List.Sublist.cons n hsub, hshare, rfl⟩
    · rintro ⟨a, b, hsub, hshare, rfl⟩
      cases hsub with
      | cons _ h => exact Or.inr ⟨a, b, h, hshare, rfl⟩
      | cons₂ _ h => exact Or.inl ⟨b, ⟨List.singleton_sublist.mp h, hshare⟩, rfl⟩

/-- Every endpoint of a produced link is the id of an input item. -/
theorem buildLinks_endpoints {ns : List Item} {l : Link} (h : l ∈ buildLinks ns) :
    l.source ∈ ns.map Item.id ∧ l.target ∈ ns.map Item.id := by
  rcases mem_buildLinks.mp h with ⟨a, b, hsub, _, rfl⟩
  have ha : a ∈ ns := hsub.subset (by simp)
  have hb : b ∈ ns := hsub.subset (by simp)
  exact ⟨List.mem_map_of_mem Item.id ha, List.mem_map_of_mem Item.id hb⟩

/-- With pairwise-distinct ids, no produced link is a self-loop. -/
theorem buildLinks_no_self_loop {ns : List Item} (hids : (ns.map Item.id).Nodup) :
    ∀ l ∈ buildLinks ns, l.source ≠ l.target := by
  intro l hl
  rcases mem_buildLinks.mp hl with ⟨a, b, hsub, _, rfl⟩
  have h2 : ([a, b].map Item.id).Nodup := hids.sublist (hsub.map Item.id)
  simpa using h2

/-- With pairwise-distinct ids, no unordered pair of endpoints appears
twice in the produced link list. -/
theorem buildLinks_pairwise_ne {ns : List Item} (hids : (ns.map Item.id).Nodup) :
    (buildLinks ns).Pairwise (fun l1 l2 => ¬ l1.sameEnds l2) := by
  induction ns with
  | nil => simp [buildLinks]
  | cons n rest ih =>
    have hcons : (∀ x ∈ rest, ¬x.id = n.id) ∧ (rest.map Item.id).Nodup := by
      simpa using hids
    have hne : ∀ m ∈ rest, m.id ≠ n.id := hcons.1
    have hrest : (rest.map Item.id).Nodup := hcons.2
    have hn : n.id ∉ rest.map Item.id := by simpa using hcons.1
    simp only [buildLinks]
    refine List.pairwise_append.mpr ⟨?_, ih hrest, ?_⟩
    · refine List.pairwise_map.mpr ?_
      have base : rest.Pairwise (fun x y => x.id ≠ y.id) :=
        List.pairwise_map.mp hrest
      have p1 : (rest.filter (fun m => nodesShareConnection n m)).Pairwise
          (fun x y => x.id ≠ y.id) :=
        base.sublist (List.filter_sublist rest)
      refine p1.imp_of_mem ?_
      intro m1 m2 h1mem h2mem h12 hsame
      rcases hsame with ⟨_, heq⟩ | ⟨heq1, _⟩
      · exact h12 heq
      · exact hne m2 (List.mem_of_mem_filter h2mem) heq1.symm
    · intro l1 h1 l2 h2
      obtain ⟨m, _, rfl⟩ := List.mem_map.mp h1
      have hend := buildLinks_endpoints h2
      intro hsame
      rcases hsame with ⟨hs, _⟩ | ⟨hs, _⟩
      · have hs' : n.id = l2.source := hs
        exact hn (hs' ▸ hend.1)
      · have hs' : n.id = l2.target := hs
        exact hn (hs' ▸ hend.2)

/-! ### Connectivity as tag-set intersection -/

/-- The function `nodesShareConnection` tests exactly the non-emptiness of the theme
intersection or the mood intersection. -/
theorem nodesShareConnection_iff (a b : Item) :
    nodesShareConnection a b = true ↔
      (∃ t ∈ a.themes, t ∈ b.themes) ∨ (∃ m ∈ a.moods, m ∈ b.moods) := by
  simp [nodesShareConnection]

/-! ### The hovered node's connected-id set -/

/-- An id is collected by `connectedIds` exactly when some link joins it
to the hovered id (in either direction). -/
theorem mem_connectedIds {links : List Link} {n x : String} :
    x ∈ connectedIds links n ↔
      ∃ l ∈ links, (l.source = n ∧ x = l.target) ∨ (l.target = n ∧ x = l.source) := by
  induction links with
  | nil => simp [connectedIds]
  | cons l rest ih =>
    simp only [connectedIds]
    by_cases hs : l.source = n <;> by_cases ht : l.target = n <;>
      simp [hs, ht, ih, List.exists_mem_cons_iff]

/-! ### Ordering-policy facts -/

/-- The sort `sortNodesByTag` permutes its input (it copies, then sorts). -/
theorem sortNodesByTag_perm (ns : List Item) (tag : String) :
    List.Perm (sortNodesByTag ns tag) ns := by
  unfold sortNodesByTag
  split
  · exact List.perm_insertionSort keyRel ns
  · exact List.perm_insertionSort (tagRel tag) ns

/-- With no active tag, the output is nondecreasing in the comparison key. -/
theorem sortNodesByTag_sorted_key (ns : List Item) :
    (sortNodesByTag ns "").Pairwise keyRel := by
  simp only [sortNodesByTag, if_pos rfl]
  exact List.sorted_insertionSort keyRel ns

/-- With an active tag, the output is nondecreasing in the tagged
comparator. -/
theorem sortNodesByTag_sorted_tag (ns : List Item) (tag : String) (h : tag ≠ "") :
    (sortNodesByTag ns tag).Pairwise (tagRel tag) := by
  simp only [sortNodesByTag, if_neg h]
  exact List.sorted_insertionSort (tagRel tag) ns

/-- Unfolding a true tagged comparison: the right item having the tag
forces the left one to have it, and equal tag status forces the key
comparison. -/
theorem tagLE_true_elim {tag : String} {a b : Item} (h : tagLE tag a b = true) :
    (b.themes.contains tag = true → a.themes.contains tag = true) ∧
    (a.themes.contains tag = b.themes.contains tag →
      strLE (sortKey a) (sortKey b) = true) := by
  cases hA : a.themes.contains tag <;> cases hB : b.themes.contains tag <;>
    simp_all [tagLE]

/-! ### Claim theorems -/

/-- Claim C1: for every list of items with pairwise-distinct ids (the data
contract), `buildLinks` returns exactly one edge `{source: id(i), target:
id(j)}` per input-ordered pair whose theme sets intersect or whose mood
sets intersect (`[a, b]` a sublist of the input means `a` occurs strictly
before `b`), and no other edges; no edge is a self-loop and no unordered
pair of endpoints appears twice. -/
theorem C1_buildLinks_exact (ns : List Item) (hids : (ns.map Item.id).Nodup) :
    (∀ l : Link, l ∈ buildLinks ns ↔
        ∃ a b : Item, List.Sublist [a, b] ns ∧
          ((∃ t ∈ a.themes, t ∈ b.themes) ∨ (∃ m ∈ a.moods, m ∈ b.moods)) ∧
          l = ⟨a.id, b.id⟩) ∧
    (∀ l ∈ buildLinks ns, l.source ≠ l.target) ∧
    (buildLinks ns).Pairwise (fun l1 l2 => ¬ l1.sameEnds l2) := by
  refine ⟨fun l => mem_buildLinks.trans ?_, buildLinks_no_self_loop hids,
    buildLinks_pairwise_ne hids⟩
  simp only [nodesShareConnection_iff]

/-- Witness for C1 at the four-item scenario. -/
theorem C1_witness :
    (buildLinks [itemA, itemB, itemC, itemD]).Pairwise
      (fun l1 l2 => ¬ l1.sameEnds l2) :=
  (C1_buildLinks_exact [itemA, itemB, itemC, itemD] (by decide)).2.2

/-- Claim C2 counterexample: a node whose id is the empty string is
present in the graph and hovered; the claim requires the `self` style
(full opacity, scale `hoverScale`), but `setHover`'s falsy test
`if (!nodeId)` treats the empty-string hover as Idle and leaves scale 1. -/
theorem C2_counterexample :
    nodeStyle (some "") [] "" = ⟨fullOpacity, baseScale⟩ ∧
    nodeStyle (some "") [] "" ≠ ⟨fullOpacity, CONFIG.hoverScale⟩ := by
  refine ⟨rfl, ?_⟩
  decide

/-- Claim C2 (amended): for every graph and hovered node id `n` that is
non-empty (an empty-string id is falsy in JS and is treated as no hover),
the connected-id set is exactly the ids sharing an edge with `n`; the
hovered node gets full opacity and `hoverScale`, connected nodes full
opacity and `connectedScale`, all others `unrelatedOpacity` and scale 1;
with no hover every node gets full opacity and scale 1. -/
theorem C2_hover_classification (links : List Link) (n : String) (hn : n ≠ "") :
    (∀ x : String, x ∈ connectedIds links n ↔
        ∃ l ∈ links, (l.source = n ∧ x = l.target) ∨
          (l.target = n ∧ x = l.source)) ∧
    nodeStyle (some n) links n = ⟨fullOpacity, CONFIG.hoverScale⟩ ∧
    (∀ i : String, i ≠ n → i ∈ connectedIds links n →
        nodeStyle (some n) links i = ⟨fullOpacity, CONFIG.connectedScale⟩) ∧
    (∀ i : String, i ≠ n → i ∉ connectedIds links n →
        nodeStyle (some n) links i = ⟨CONFIG.unrelatedOpacity, baseScale⟩) ∧
    (∀ i : String, nodeStyle none links i = ⟨fullOpacity, baseScale⟩) := by
  refine ⟨fun _ => mem_connectedIds, ?_, ?_, ?_, fun _ => rfl⟩
  · simp [nodeStyle, hn]
  · intro i hne hmem
    simp [nodeStyle, hn, hne, hmem]
  · intro i hne hmem
    simp [nodeStyle, hn, hne, hmem]

/-- Witness for C2 on a one-edge graph. -/
theorem C2_witness :
    nodeStyle (some "A") [Link.mk "A" "B"] "B" =
      ⟨fullOpacity, CONFIG.connectedScale⟩ :=
  (C2_hover_classification [Link.mk "A" "B"] "A" (by decide)).2.2.1 "B"
    (by decide) (by decide)

/-- Claim C3: with a non-empty active tag and distinct ids, the projection
keeps exactly the items whose `themes` contain the tag (moods are never
consulted), each exactly once, in ordering-policy order, and every edge
endpoint is the id of a kept node. -/
theorem C3_filter_projection (fullNodes : List Item) (theme : String)
    (hth : theme ≠ "") (hids : (fullNodes.map Item.id).Nodup) :
    (∀ x : Item, x ∈ (rebuildForFilter fullNodes theme).1 ↔
        x ∈ fullNodes ∧ theme ∈ x.themes) ∧
    List.Perm (rebuildForFilter fullNodes theme).1
      (fullNodes.filter (fun n => n.themes.contains theme)) ∧
    (rebuildForFilter fullNodes theme).1 =
      sortNodesByTag (fullNodes.filter (fun n => n.themes.contains theme)) theme ∧
    ((rebuildForFilter fullNodes theme).1.map Item.id).Nodup ∧
    (∀ l ∈ (rebuildForFilter fullNodes theme).2,
        l.source ∈ (rebuildForFilter fullNodes theme).1.map Item.id ∧
        l.target ∈ (rebuildForFilter fullNodes theme).1.map Item.id) := by
  have heq : (rebuildForFilter fullNodes theme).1 =
      sortNodesByTag (fullNodes.filter (fun n => n.themes.contains theme)) theme := by
    simp [rebuildForFilter, applyThemeFilter, hth]
  have hperm : List.Perm (rebuildForFilter fullNodes theme).1
      (fullNodes.filter (fun n => n.themes.contains theme)) := by
    rw [heq]
    exact sortNodesByTag_perm _ theme
  have hnd : ((rebuildForFilter fullNodes theme).1.map Item.id).Nodup := by
    refine ((hperm.map Item.id).nodup_iff).mpr ?_
    exact hids.sublist ((List.filter_sublist fullNodes).map Item.id)
  refine ⟨?_, hperm, heq, hnd, ?_⟩
  · intro x
    rw [hperm.mem_iff, List.mem_filter]
    simp
  · intro l hl
    exact buildLinks_endpoints
      (show l ∈ buildLinks ((rebuildForFilter fullNodes theme).1) from hl)

/-- Witness for C3 at the four-item scenario with tag `y`. -/
theorem C3_witness :
    List.Perm (rebuildForFilter [itemA, itemB, itemC, itemD] "y").1
      ([itemA, itemB, itemC, itemD].filter (fun n => n.themes.contains "y")) :=
  (C3_filter_projection [itemA, itemB, itemC, itemD] "y" (by decide)
    (by decide)).2.1

/-- Claim C4 counterexample: with the empty-named item `{id: "z"}` and the
named item `{id: "a", name: "a"}`, the no-tag sort compares `"z"` (the id
fallback) against `"a"` and puts the named item first, so the output
`["a", ""]` is not ascending in `displayName` (the `name` field). -/
theorem C4_counterexample :
    sortNodesByTag [itemNoName, itemNamed] "" = [itemNamed, itemNoName] ∧
    ¬ (sortNodesByTag [itemNoName, itemNamed] "").Pairwise
        (fun a b => strLE a.name b.name = true) := by
  constructor
  · decide
  · decide

/-- Claim C4 (amended): `sortNodesByTag` returns a permutation of its
input (a fresh copy; the input list is untouched); with no active tag the
output is ascending in the comparison key `name || id` (displayName when
the name is non-empty, the id otherwise); with an active tag every item
carrying the tag precedes every item without it, and items of equal tag
status are ascending in the same key. -/
theorem C4_ordering_policy (ns : List Item) (tag : String) :
    List.Perm (sortNodesByTag ns tag) ns ∧
    (tag = "" → (sortNodesByTag ns tag).Pairwise
        (fun a b => strLE (sortKey a) (sortKey b) = true)) ∧
    (tag ≠ "" → (sortNodesByTag ns tag).Pairwise
        (fun a b =>
          (b.themes.contains tag = true → a.themes.contains tag = true) ∧
          (a.themes.contains tag = b.themes.contains tag →
            strLE (sortKey a) (sortKey b) = true))) := by
  refine ⟨sortNodesByTag_perm ns tag, ?_, ?_⟩
  · rintro rfl
    exact sortNodesByTag_sorted_key ns
  · intro h
    exact (sortNodesByTag_sorted_tag ns tag h).imp tagLE_true_elim

/-- Witness for C4 on a two-item list with no active tag. -/
theorem C4_witness :
    (sortNodesByTag [itemNoName, itemNamed] "").Pairwise
      (fun a b => strLE (sortKey a) (sortKey b) = true) :=
  (C4_ordering_policy [itemNoName, itemNamed] "").2.1 rfl

/-- Claim C5: on the scenario items `A: themes=[x]`, `B: themes=[x,y]`,
`C: themes=[y]`, `D: themes=[z]` (no moods), `buildLinks` yields exactly
the edges `A-B` and `B-C`, and filtering by `y` yields the nodes `[B, C]`
in that order with the single edge `B-C`. -/
theorem C5_scenario :
    buildLinks [itemA, itemB, itemC, itemD] = [⟨"A", "B"⟩, ⟨"B", "C"⟩] ∧
    (rebuildForFilter [itemA, itemB, itemC, itemD] "y").1 = [itemB, itemC] ∧
    (rebuildForFilter [itemA, itemB, itemC, itemD] "y").2 = [⟨"B", "C"⟩] :=
  ⟨by decide, by decide, by decide⟩

/-- Claim C6 counterexample: with the graph `[{id: "a"}]` (no links) and
the stale hovered id `"b"`, the claim requires Idle semantics (full
opacity, scale 1), but the classification lands in the `other` branch:
opacity `unrelatedOpacity`, differing from the Idle style. -/
theorem C6_counterexample :
    nodeStyle (some "b") [] itemLone.id =
      ⟨CONFIG.unrelatedOpacity, baseScale⟩ ∧
    nodeStyle (some "b") [] itemLone.id ≠ nodeStyle none [] itemLone.id := by
  refine ⟨rfl, ?_⟩
  decide

/-- Claim C6 (amended): for every graph whose edges reference only node
ids and every non-empty hovered id absent from the graph (a stale hover),
every node is classified `other` — reduced opacity `unrelatedOpacity` at
scale 1, not the Idle full opacity — while every edge keeps the neutral
stroke color (and carries the `dimmed` class). -/
theorem C6_stale_hover (nodes : List Item) (links : List Link) (n : String)
    (hn : n ≠ "") (habs : ∀ x ∈ nodes, x.id ≠ n)
    (hrefs : ∀ l ∈ links, l.source ∈ nodes.map Item.id ∧
      l.target ∈ nodes.map Item.id) :
    (∀ x ∈ nodes, nodeStyle (some n) links x.id =
        ⟨CONFIG.unrelatedOpacity, baseScale⟩) ∧
    (∀ l ∈ links, linkStroke (some n) l = CONFIG.lineColor ∧
        linkDimmed (some n) l = true) := by
  have hend : ∀ l ∈ links, l.source ≠ n ∧ l.target ≠ n := by
    intro l hl
    obtain ⟨h1, h2⟩ := hrefs l hl
    obtain ⟨y1, hy1, hy1id⟩ := List.mem_map.mp h1
    obtain ⟨y2, hy2, hy2id⟩ := List.mem_map.mp h2
    exact ⟨fun he => habs y1 hy1 (hy1id.trans he),
      fun he => habs y2 hy2 (hy2id.trans he)⟩
  constructor
  · intro x hx
    have hxne : x.id ≠ n := habs x hx
    have hxnc : x.id ∉ connectedIds links n := by
      intro hmem
      obtain ⟨l, hl, hcase⟩ := mem_connectedIds.mp hmem
      rcases hcase with ⟨hsn, _⟩ | ⟨htn, _⟩
      · exact (hend l hl).1 hsn
      · exact (hend l hl).2 htn
    simp [nodeStyle, hn, hxne, hxnc]
  · intro l hl
    obtain ⟨h1, h2⟩ := hend l hl
    constructor
    · simp [linkStroke, hn, h1, h2]
    · simp [linkDimmed, hn, h1, h2]

/-- Witness for C6 on a one-node graph with a stale hovered id. -/
theorem C6_witness :
    nodeStyle (some "b") [] itemLone.id =
      ⟨CONFIG.unrelatedOpacity, baseScale⟩ :=
  (C6_stale_hover [itemLone] [] "b" (by decide) (by decide)
    (by decide)).1 itemLone (by decide)

/-- Claim C7: a raw entry with `themes` omitted (or not an array) loads
with `themes = []`, is excluded by every non-empty tag filter, and shares
a connection with another item exactly when their moods intersect (no
theme-based edges; all operations are total, so nothing can fail). -/
theorem C7_omitted_themes (d : RawNode) (hd : d.themes = none) :
    (loadItem d).themes = [] ∧
    (∀ tag : String, tag ≠ "" → ∀ ns : List Item,
        loadItem d ∉ applyThemeFilter ns tag) ∧
    (∀ b : Item, nodesShareConnection (loadItem d) b =
        (loadItem d).moods.any (fun m => b.moods.contains m)) ∧
    (∀ a : Item, nodesShareConnection a (loadItem d) =
        a.moods.any (fun m => (loadItem d).moods.contains m)) := by
  have ht : (loadItem d).themes = [] := by simp [loadItem, hd]
  refine ⟨ht, ?_, ?_, ?_⟩
  · intro tag htag ns hmem
    rw [applyThemeFilter, if_neg htag] at hmem
    have h2 := (List.mem_filter.mp hmem).2
    rw [ht] at h2
    simp at h2
  · intro b
    simp [nodesShareConnection, ht]
  · intro a
    simp [nodesShareConnection, ht]

/-- Witness for C7 at a concrete raw entry with a mood but no themes. -/
theorem C7_witness : (loadItem rawOmitted).themes = [] :=
  (C7_omitted_themes rawOmitted rfl).1

/-- Claim C8: the Ordering Policy is idempotent — sorting an already
sorted list (for the same tag) returns it unchanged. -/
theorem C8_sort_idempotent (ns : List Item) (tag : String) :
    sortNodesByTag (sortNodesByTag ns tag) tag = sortNodesByTag ns tag := by
  by_cases h : tag = ""
  · subst h
    simp only [sortNodesByTag, if_pos rfl]
    exact (List.sorted_insertionSort keyRel ns).insertionSort_eq
  · simp only [sortNodesByTag, if_neg h]
    exact (List.sorted_insertionSort (tagRel tag) ns).insertionSort_eq

/-- Claim C9: `onResize` leaves the node and edge sets untouched; it only
updates the drawing-surface dimensions and, when a simulation exists, the
centering-force target (the new half-dimensions) and the temperature
(`alpha(0.3)`). -/
theorem C9_resize_preserves_graph (st : GraphView) (rectW rectH : ℚ) :
    (onResize st rectW rectH).nodes = st.nodes ∧
    (onResize st rectW rectH).links = st.links ∧
    (onResize st rectW rectH).svgWidth = (getDimensions rectW rectH).1 ∧
    (onResize st rectW rectH).svgHeight = (getDimensions rectW rectH).2 ∧
    (onResize st rectW rectH).sim = st.sim.map (fun s =>
      { s with
        centerX := (getDimensions rectW rectH).1 / 2
        centerY := (getDimensions rectW rectH).2 / 2
        centerStrength := CONFIG.centerStrength
        alpha := 3/10 }) :=
  ⟨rfl, rfl, rfl, rfl, rfl⟩

/-- Claim C10: the sort key is the id for an empty derived name and the
name otherwise; hence among all-empty-named items the no-tag ordering is
lexicographic by id. -/
theorem C10_sort_key_fallback :
    (∀ a : Item, (a.name = "" → sortKey a = a.id) ∧
      (a.name ≠ "" → sortKey a = a.name)) ∧
    (∀ ns : List Item, (∀ x ∈ ns, x.name = "") →
      (sortNodesByTag ns "").Pairwise (fun a b => strLE a.id b.id = true)) := by
  constructor
  · intro a
    exact ⟨fun h => by simp [sortKey, h], fun h => by simp [sortKey, h]⟩
  · intro ns h
    refine (sortNodesByTag_sorted_key ns).imp_of_mem ?_
    intro a b ha hb hab
    have ha' : a.name = "" := h a ((sortNodesByTag_perm ns "").mem_iff.mp ha)
    have hb' : b.name = "" := h b ((sortNodesByTag_perm ns "").mem_iff.mp hb)
    simpa [keyRel, sortKey, ha', hb'] using hab

/-- Witness for C10: the empty-named item keys by id, and two empty-named
items sort by id. -/
theorem C10_witness :
    sortKey itemNoName = itemNoName.id ∧
    (sortNodesByTag [itemNoName, itemLone] "").Pairwise
      (fun a b => strLE a.id b.id = true) :=
  ⟨(C10_sort_key_fallback.1 itemNoName).1 rfl,
    C10_sort_key_fallback.2 [itemNoName, itemLone] (by decide)⟩
